import Mathlib

/-!
Shallow embedding of the tf-crnn preprocessing pipeline
(`src/preprocessing.py`) and of the CER-metric / model-assembly logic
(`src/model.py`), together with proofs settling the specification claims.

Conventions of the embedding:
* character units are lists over an arbitrary decidable type `α`
  (a unit may consist of several symbols, as `alphabet_units` allows);
* the label split delimiter (`string_split_delimiter`, the character `|`
  in this repository's data preparation) is modelled as a single symbol,
  so `re.sub(re.escape(delim), '', label)` becomes a filter and
  `label.split(delim)` becomes `pySplit`;
* the conversion table `table_str2int` (a Python dict built at
  `preprocessing.py:60`) is an association list with first-match lookup;
* a Python `KeyError` raised by `table_str2int[c]` is an `Except.error`
  carrying the offending key;
* image geometry (`get_image_shape_without_loading`) is modelled by each
  sample carrying its width and height; real arithmetic on image ratios
  is carried out in `ℚ`, with `np.floor` as `Rat.floor`.
-/

/-- Embedding of Python `label.split(split_char)` for a single-symbol
delimiter: splits a list on every occurrence of `d`, keeping empty parts,
e.g. splitting `|a|` on `|` yields `[[], [a], []]`. -/
def pySplit {α : Type} [DecidableEq α] (d : α) : List α → List (List α)
  | [] => [[]]
  | c :: rest =>
    let parts := pySplit d rest
    if c = d then [] :: parts
    else (c :: parts.headI) :: parts.tail

/-- Embedding of `re.sub(re.escape(delimiter), '', label)` at
`preprocessing.py:73` for a single-symbol delimiter: remove every
occurrence of the delimiter. -/
def stripDelim {α : Type} [DecidableEq α] (d : α) (label : List α) : List α :=
  label.filter (fun c => c ≠ d)

/-- `label_len` at `preprocessing.py:74`: the length of the
delimiter-stripped label. -/
def labelLen {α : Type} [DecidableEq α] (d : α) (label : List α) : ℕ :=
  (stripDelim d label).length

/-- The list comprehension at `preprocessing.py:25`: split a label on the
delimiter and drop the empty units (`if c`). -/
def labelUnits {α : Type} [DecidableEq α] (d : α) (label : List α) : List (List α) :=
  (pySplit d label).filter (fun u => u ≠ [])

/-- First-match lookup in the association list that embeds the Python
dict `table_str2int` (with distinct keys the two coincide). -/
def lookupTable {α : Type} [DecidableEq α] : List (List α × ℕ) → List α → Option ℕ
  | [], _ => none
  | kv :: rest, u => if kv.1 = u then some kv.2 else lookupTable rest u

/-- The inner comprehension `[table_str2int[c] for c in list_char]` at
`preprocessing.py:26`: encode each unit, raising (`Except.error`, the
`KeyError` labelled with the key) at the first unit absent from the table. -/
def encodeUnits {α : Type} [DecidableEq α] (t : List (List α × ℕ)) :
    List (List α) → Except (List α) (List ℕ)
  | [] => .ok []
  | u :: us =>
    match lookupTable t u with
    | none => .error u
    | some c =>
      match encodeUnits t us with
      | .error e => .error e
      | .ok cs => .ok (c :: cs)

/-- The outer comprehension at `preprocessing.py:26`: encode every label,
propagating the first `KeyError`. -/
def encodeLabels {α : Type} [DecidableEq α] (t : List (List α × ℕ)) :
    List (List (List α)) → Except (List α) (List (List ℕ))
  | [] => .ok []
  | l :: ls =>
    match encodeUnits t l with
    | .error e => .error e
    | .ok cs =>
      match encodeLabels t ls with
      | .error e => .error e
      | .ok css => .ok (cs :: css)

/-- `ls + np.maximum(0, (max_width - len(ls))) * [0]` at
`preprocessing.py:32`: right-pad the code list with
`max(0, max_width - len(ls))` zeros (the numpy integer scalar defers to
Python list repetition; truncated `ℕ` subtraction is exactly the
`np.maximum(0, ·)`). -/
def padCodes (ls : List ℕ) (maxWidth : ℕ) : List ℕ :=
  ls ++ List.replicate (maxWidth - ls.length) 0

/-- `_convert_label_to_dense_codes` (`preprocessing.py:13-34`): split each
label into non-empty units, encode the units through the table, record the
unpadded lengths and emit the zero-padded dense code lists. -/
def convert_label_to_dense_codes {α : Type} [DecidableEq α]
    (labels : List (List α)) (splitChar : α) (maxWidth : ℕ)
    (t : List (List α × ℕ)) : Except (List α) (List (List ℕ) × List ℕ) :=
  let labelsChars := labels.map (labelUnits splitChar)
  match encodeLabels t labelsChars with
  | .error e => .error e
  | .ok codesList =>
    .ok (codesList.map (fun ls => padCodes ls maxWidth),
         codesList.map List.length)

/-- `_compute_length_inputs` (`preprocessing.py:37-45`): the width of the
image after resizing to the target height, capped at the target width;
`targetShape = (new height, max width)`. -/
def compute_length_inputs (w h : ℕ) (targetShape : ℕ × ℕ) : ℚ :=
  min ((targetShape.1 : ℚ) * ((w : ℚ) / (h : ℚ))) (targetShape.2 : ℚ)

/-- One row of the input CSV: an (opaque) path identifier, the width and
height reported for that path by `get_image_shape_without_loading`, and
the raw delimited label. -/
structure Sample (α : Type) where
  path : ℕ
  width : ℕ
  height : ℕ
  label : List α
deriving DecidableEq

/-- The configuration fields of `Params` that `preprocess_csv` reads:
the conversion table (`alphabet_units` zipped with `codes`), the split
delimiter, `max_chars_per_string`, `input_shape = (height, width)` and
`n_pool`. -/
structure PreprocParams (α : Type) where
  table : List (List α × ℕ)
  splitDelim : α
  maxCharsPerString : ℕ
  inputShape : ℕ × ℕ
  nPool : ℕ
deriving DecidableEq

/-- `input_length` of a sample as computed at `preprocessing.py:80-81`:
`np.floor(_compute_length_inputs(path, input_shape) / n_pool)`. -/
def inputLengthOf {α : Type} [DecidableEq α] (p : PreprocParams α)
    (s : Sample α) : ℤ :=
  Rat.floor (compute_length_inputs s.width s.height p.inputShape / (p.nPool : ℚ))

/-- The two dataframe filters of `preprocess_csv`
(`preprocessing.py:77` and `preprocessing.py:83`): keep samples whose
stripped-label length is at most `max_chars_per_string` and strictly below
the computed `input_length`. -/
def retainedSamples {α : Type} [DecidableEq α] (p : PreprocParams α)
    (samples : List (Sample α)) : List (Sample α) :=
  (samples.filter
      (fun s => labelLen p.splitDelim s.label ≤ p.maxCharsPerString)).filter
    (fun s => (labelLen p.splitDelim s.label : ℤ) < inputLengthOf p s)

/-- One row of the output CSV (`preprocessing.py:105`): path, dense code
sequence and true label length (the space-joined string formatting of the
codes at lines 102-103 is a bijective serialization and is omitted). -/
structure OutRow where
  path : ℕ
  labelCodes : List ℕ
  labelLength : ℕ
deriving DecidableEq

/-- Assemble the output dataframe from its three equal-length columns
(`pd.DataFrame(data)` at `preprocessing.py:105-106`). -/
def mkRows : List ℕ → List (List ℕ) → List ℕ → List OutRow
  | p :: ps, d :: ds, l :: ls => ⟨p, d, l⟩ :: mkRows ps ds ls
  | _, _, _ => []

/-- `preprocess_csv` (`preprocessing.py:48-115`): filter the samples,
compute the advisory removal diagnostic (`preprocessing.py:88-90`, printed
only when `n_removed > 0`), encode the retained labels and emit the output
rows together with the returned row count; an unencodable unit aborts the
run with `Except.error` (the uncaught `KeyError`), in which case no output
is produced. -/
def preprocess_csv {α : Type} [DecidableEq α] (p : PreprocParams α)
    (samples : List (Sample α)) :
    Except (List α) (List OutRow × Option ℚ × ℕ) :=
  let originalLen := samples.length
  let retained := retainedSamples p samples
  let nRemoved := originalLen - retained.length
  let removalDiagnostic : Option ℚ :=
    if 0 < nRemoved then some ((100 * nRemoved : ℚ) / (originalLen : ℚ)) else none
  match convert_label_to_dense_codes (retained.map (·.label)) p.splitDelim
      p.maxCharsPerString p.table with
  | .error e => .error e
  | .ok (denseCodes, seqLengths) =>
    let rows := mkRows (retained.map (·.path)) denseCodes seqLengths
    .ok (rows, removalDiagnostic, rows.length)

/-- The mutable state of `CERMetric` (`model.py:50-75`): the running sum
of edit distances and the running sum of true character counts, both
`add_weight` variables initialised to zero. -/
structure CERMetricState where
  distance : ℚ
  count_chars : ℚ
deriving DecidableEq

/-- `CERMetric.update_state` (`model.py:57-68`), abstracted over the
batch's summed edit distance and summed true-character count (the decode
producing them references names outside its scope): both running sums are
increased (`assign_add`). -/
def CERMetricState.update_state (s : CERMetricState)
    (batchDistance batchCount : ℚ) : CERMetricState :=
  ⟨s.distance + batchDistance, s.count_chars + batchCount⟩

/-- `CERMetric.result` (`model.py:70-71`): the ratio of the running sums,
guarded to `1.0` when no character has been counted. -/
def CERMetricState.result (s : CERMetricState) : ℚ :=
  if 0 < s.count_chars then s.distance / s.count_chars else 1

/-- `CERMetric.reset_states` (`model.py:73-75`): both running sums are
assigned `0`. -/
def CERMetricState.reset_states : CERMetricState := ⟨0, 0⟩

/-- Run `CERMetric` over an epoch: reset, then `update_state` once per
batch, each batch contributing its summed distance and character count. -/
def runCERMetric (batches : List (ℚ × ℚ)) : CERMetricState :=
  batches.foldl (fun s b => s.update_state b.1 b.2) CERMetricState.reset_states

/-- The value returned by `warp_cer_metric` (`model.py:141-164`), the
metric compiled into the training model, abstracted over the current
batch's summed edit distance and summed true-character count: an
unguarded `tf.divide`; division by a zero character count yields no
rational value (IEEE `inf`/`nan`), modelled as `none`. -/
def warp_cer_metric_value (distance count : ℚ) : Option ℚ :=
  if count = 0 then none else some (distance / count)

/-- The per-block configuration record assembled by the comprehension at
`model.py:92`, with `cnn_padding` fixed to `'same'`. -/
structure ConvBlockCfg where
  features : ℕ
  kernelSize : ℕ
  stride : ℕ × ℕ
  cnnPadding : String
  poolSize : ℕ × ℕ
  poolStrides : ℕ × ℕ
  batchnorm : Bool
deriving DecidableEq

/-- `zip(cnn_features_list, cnn_kernel_size, cnn_stride_size,
cnn_pool_size, cnn_pool_strides, cnn_batch_norm)` at `model.py:90-91`:
Python `zip` stops at the shortest list, modelled by nested `List.zip`. -/
def cnnParams (features kernels : List ℕ)
    (strides poolSizes poolStrides : List (ℕ × ℕ)) (bns : List Bool) :
    List ((((ℕ × ℕ) × (ℕ × ℕ)) × (ℕ × ℕ)) × (ℕ × ℕ) × Bool) :=
  (((features.zip kernels).zip strides).zip poolSizes).zip
    (poolStrides.zip bns)

/-- The conv-layer list of `get_crnn_output` (`model.py:90-92`): one
`ConvBlock` per tuple produced by the zip, padding `'same'`. -/
def convLayers (features kernels : List ℕ)
    (strides poolSizes poolStrides : List (ℕ × ℕ)) (bns : List Bool) :
    List ConvBlockCfg :=
  (cnnParams features kernels strides poolSizes poolStrides bns).map
    (fun q => ⟨q.1.1.1.1, q.1.1.1.2, q.1.1.2, "same", q.1.2, q.2.1, q.2.2⟩)

/-- Modelled from the spec: the repository decodes predictions with
TensorFlow's `ctc_decode(..., greedy=True)` (`model.py:145`), whose
semantics live outside the repository; the spec describes it as collapsing
consecutive repeats. This is the repeat-collapsing pass. -/
def collapseRepeats : List ℕ → List ℕ
  | [] => []
  | [x] => [x]
  | x :: y :: rest =>
    if x = y then collapseRepeats (y :: rest)
    else x :: collapseRepeats (y :: rest)

/-- Modelled from the spec: greedy CTC decoding of a per-timestep argmax
sequence — collapse consecutive repeats, then remove the blank symbol. -/
def greedyDecode (blank : ℕ) (xs : List ℕ) : List ℕ :=
  (collapseRepeats xs).filter (fun c => c ≠ blank)

/-- Decode one code through the alphabet table in the inverse direction
(first key carrying the code), as the round-trip property quantifies. -/
def decodeCode {α : Type} [DecidableEq α] : List (List α × ℕ) → ℕ → Option (List α)
  | [], _ => none
  | kv :: rest, c => if kv.2 = c then some kv.1 else decodeCode rest c

/-- Decode a list of codes through the inverse alphabet table, failing if
any code has no preimage. -/
def decodeCodes {α : Type} [DecidableEq α] (t : List (List α × ℕ)) :
    List ℕ → Option (List (List α))
  | [] => some []
  | c :: cs =>
    match decodeCode t c, decodeCodes t cs with
    | some u, some us => some (u :: us)
    | _, _ => none

/-- The dense code list that `preprocess_csv` emits for a retained sample. -/
def emittedCodes {α : Type} [DecidableEq α] (p : PreprocParams α)
    (s : Sample α) : List ℕ :=
  padCodes ((labelUnits p.splitDelim s.label).map
    (fun u => (lookupTable p.table u).getD 0)) p.maxCharsPerString

section Helpers

variable {α : Type} [DecidableEq α]

lemma pySplit_ne_nil (d : α) (xs : List α) : pySplit d xs ≠ [] := by
  cases xs with
  | nil => simp [pySplit]
  | cons c rest =>
    simp only [pySplit]
    split <;> simp

lemma flatten_pySplit (d : α) (xs : List α) :
    (pySplit d xs).flatten = stripDelim d xs := by
  induction xs with
  | nil => simp [pySplit, stripDelim]
  | cons c rest ih =>
    by_cases h : c = d
    · simp [pySplit, stripDelim, h] at *
      simpa [stripDelim] using ih
    · obtain ⟨p, ps, hp⟩ := List.exists_cons_of_ne_nil (pySplit_ne_nil d rest)
      simp [pySplit, stripDelim, h, hp] at *
      simpa [stripDelim, hp] using ih

lemma flatten_filter_ne_nil (l : List (List α)) :
    (l.filter (fun u => u ≠ [])).flatten = l.flatten := by
  induction l with
  | nil => rfl
  | cons u us ih =>
    by_cases h : u = []
    · rw [List.filter_cons_of_neg (by simp [h])]
      subst h
      simpa using ih
    · rw [List.filter_cons_of_pos (by simp [h])]
      simp only [List.flatten_cons, ih]

lemma flatten_labelUnits (d : α) (xs : List α) :
    (labelUnits d xs).flatten = stripDelim d xs := by
  simp only [labelUnits]
  rw [flatten_filter_ne_nil, flatten_pySplit]

lemma labelUnits_ne_nil (d : α) (xs : List α) :
    ∀ u ∈ labelUnits d xs, u ≠ [] := by
  intro u hu
  simp [labelUnits, List.mem_filter] at hu
  exact hu.2

omit [DecidableEq α] in
lemma length_le_length_flatten (l : List (List α)) (h : ∀ u ∈ l, u ≠ []) :
    l.length ≤ l.flatten.length := by
  induction l with
  | nil => simp
  | cons u us ih =>
    have hu : u ≠ [] := h u (List.mem_cons_self _ _)
    have h1 : 1 ≤ u.length := List.length_pos.mpr hu
    have h2 := ih (fun v hv => h v (List.mem_cons_of_mem _ hv))
    simp only [List.flatten_cons, List.length_cons, List.length_append]
    omega

omit [DecidableEq α] in
lemma length_flatten_of_singletons (l : List (List α)) (h : ∀ u ∈ l, u.length = 1) :
    l.flatten.length = l.length := by
  induction l with
  | nil => simp
  | cons u us ih =>
    have hu : u.length = 1 := h u (List.mem_cons_self _ _)
    have h2 := ih (fun v hv => h v (List.mem_cons_of_mem _ hv))
    simp only [List.flatten_cons, List.length_cons, List.length_append]
    omega

lemma labelUnits_length_le (d : α) (xs : List α) :
    (labelUnits d xs).length ≤ labelLen d xs := by
  have h1 := length_le_length_flatten (labelUnits d xs) (labelUnits_ne_nil d xs)
  rw [flatten_labelUnits] at h1
  exact h1

lemma lookupTable_mem {t : List (List α × ℕ)} {u : List α} {c : ℕ}
    (h : lookupTable t u = some c) : (u, c) ∈ t := by
  induction t with
  | nil => simp [lookupTable] at h
  | cons kv rest ih =>
    simp only [lookupTable] at h
    by_cases hk : kv.1 = u
    · simp [hk] at h
      have hkv : kv = (u, c) := by
        obtain ⟨k1, k2⟩ := kv
        simp at hk h
        simp [hk, h]
      rw [hkv]
      exact List.mem_cons_self _ _
    · simp [hk] at h
      exact List.mem_cons_of_mem _ (ih h)

end Helpers

section EncodeLemmas

variable {α : Type} [DecidableEq α]

lemma encodeUnits_ok {t : List (List α × ℕ)} {us : List (List α)}
    (h : ∀ u ∈ us, (lookupTable t u).isSome) :
    encodeUnits t us = .ok (us.map (fun u => (lookupTable t u).getD 0)) := by
  induction us with
  | nil => rfl
  | cons u us ih =>
    obtain ⟨c, hc⟩ := Option.isSome_iff_exists.mp (h u (List.mem_cons_self _ _))
    have ih2 := ih (fun v hv => h v (List.mem_cons_of_mem _ hv))
    simp [encodeUnits, hc, ih2]

lemma encodeUnits_ok_isSome {t : List (List α × ℕ)} {us : List (List α)}
    {cs : List ℕ} (h : encodeUnits t us = .ok cs) :
    ∀ u ∈ us, (lookupTable t u).isSome := by
  induction us generalizing cs with
  | nil => simp
  | cons u us ih =>
    intro v hv
    simp only [encodeUnits] at h
    cases hl : lookupTable t u with
    | none => rw [hl] at h; simp at h
    | some c =>
      rw [hl] at h
      cases hrec : encodeUnits t us with
      | error e => rw [hrec] at h; simp at h
      | ok cs2 =>
        rcases List.mem_cons.mp hv with hvu | hvm
        · rw [hvu, hl]; rfl
        · exact ih hrec v hvm

lemma encodeUnits_error_lookup {t : List (List α × ℕ)} {us : List (List α)}
    {e : List α} (h : encodeUnits t us = .error e) : lookupTable t e = none := by
  induction us generalizing e with
  | nil => simp [encodeUnits] at h
  | cons u us ih =>
    simp only [encodeUnits] at h
    cases hl : lookupTable t u with
    | none =>
      rw [hl] at h
      simp at h
      rw [← h, hl]
    | some c =>
      rw [hl] at h
      cases hrec : encodeUnits t us with
      | error e2 =>
        rw [hrec] at h
        simp at h
        rw [← h]
        exact ih hrec
      | ok cs => rw [hrec] at h; simp at h

lemma encodeLabels_ok {t : List (List α × ℕ)} {ls : List (List (List α))}
    (h : ∀ l ∈ ls, ∀ u ∈ l, (lookupTable t u).isSome) :
    encodeLabels t ls =
      .ok (ls.map (fun l => l.map (fun u => (lookupTable t u).getD 0))) := by
  induction ls with
  | nil => rfl
  | cons l ls ih =>
    have h1 := encodeUnits_ok (h l (List.mem_cons_self _ _))
    have ih2 := ih (fun l2 hl2 => h l2 (List.mem_cons_of_mem _ hl2))
    simp [encodeLabels, h1, ih2]

lemma encodeLabels_ok_isSome {t : List (List α × ℕ)} {ls : List (List (List α))}
    {css : List (List ℕ)} (h : encodeLabels t ls = .ok css) :
    ∀ l ∈ ls, ∀ u ∈ l, (lookupTable t u).isSome := by
  induction ls generalizing css with
  | nil => simp
  | cons l ls ih =>
    intro l2 hl2
    simp only [encodeLabels] at h
    cases henc : encodeUnits t l with
    | error e => rw [henc] at h; simp at h
    | ok cs =>
      rw [henc] at h
      cases hrec : encodeLabels t ls with
      | error e => rw [hrec] at h; simp at h
      | ok css2 =>
        rcases List.mem_cons.mp hl2 with hl | hm
        · rw [hl]; exact encodeUnits_ok_isSome henc
        · exact ih hrec l2 hm

lemma encodeLabels_error_lookup {t : List (List α × ℕ)}
    {ls : List (List (List α))} {e : List α}
    (h : encodeLabels t ls = .error e) : lookupTable t e = none := by
  induction ls generalizing e with
  | nil => simp [encodeLabels] at h
  | cons l ls ih =>
    simp only [encodeLabels] at h
    cases henc : encodeUnits t l with
    | error e2 =>
      rw [henc] at h
      simp at h
      rw [← h]
      exact encodeUnits_error_lookup henc
    | ok cs =>
      rw [henc] at h
      cases hrec : encodeLabels t ls with
      | error e2 =>
        rw [hrec] at h
        simp at h
        rw [← h]
        exact ih hrec
      | ok css => rw [hrec] at h; simp at h

end EncodeLemmas

lemma mkRows_map3 {β : Type} (f : β → ℕ) (g : β → List ℕ) (h : β → ℕ)
    (l : List β) :
    mkRows (l.map f) (l.map g) (l.map h) = l.map (fun s => ⟨f s, g s, h s⟩) := by
  induction l with
  | nil => rfl
  | cons x xs ih => simp [mkRows, ih]

lemma preprocess_csv_ok_rows {α : Type} [DecidableEq α]
    {p : PreprocParams α} {samples : List (Sample α)} {rows : List OutRow}
    {diag : Option ℚ} {n : ℕ}
    (h : preprocess_csv p samples = .ok (rows, diag, n)) :
    rows = (retainedSamples p samples).map (fun s =>
      (⟨s.path, emittedCodes p s,
        (labelUnits p.splitDelim s.label).length⟩ : OutRow)) := by
  simp only [preprocess_csv] at h
  split at h
  · simp at h
  · next dense lens hconv =>
    simp only [convert_label_to_dense_codes] at hconv
    split at hconv
    · simp at hconv
    · next codesList henc =>
      have hsome := encodeLabels_ok_isSome henc
      rw [encodeLabels_ok hsome] at henc
      simp only [List.map_map, Except.ok.injEq] at henc
      obtain ⟨hdense, hlens⟩ := Prod.mk.injEq .. ▸ Except.ok.injEq .. ▸ hconv
      rw [← henc] at hdense hlens
      rw [← hdense, ← hlens, List.map_map, List.map_map] at h
      rw [mkRows_map3] at h
      simp only [Except.ok.injEq, Prod.mk.injEq] at h
      rw [← h.1]
      apply List.map_congr_left
      intro s _
      simp [Function.comp, emittedCodes]

lemma runCERMetric_foldl (batches : List (ℚ × ℚ)) (s : CERMetricState) :
    batches.foldl (fun s b => s.update_state b.1 b.2) s =
      ⟨s.distance + (batches.map Prod.fst).sum,
        s.count_chars + (batches.map Prod.snd).sum⟩ := by
  induction batches generalizing s with
  | nil => simp
  | cons b bs ih =>
    simp only [List.foldl_cons, List.map_cons, List.sum_cons]
    rw [show s.update_state b.1 b.2 =
      (⟨s.distance + b.1, s.count_chars + b.2⟩ : CERMetricState) from rfl, ih]
    simp [add_assoc]

/-- Claim C2: `preprocess_csv` retains a sample exactly when its
delimiter-stripped label length is at most `max_chars_per_string` and
strictly below `input_length`, where
`input_length = floor(min(target_height * (width / height), target_width) / n_pool)`;
every other sample is excluded. -/
theorem C2_retention_iff {α : Type} [DecidableEq α] (p : PreprocParams α)
    (samples : List (Sample α)) (s : Sample α) :
    s ∈ retainedSamples p samples ↔
      s ∈ samples ∧
        labelLen p.splitDelim s.label ≤ p.maxCharsPerString ∧
        (labelLen p.splitDelim s.label : ℤ) <
          Rat.floor ((min ((p.inputShape.1 : ℚ) * ((s.width : ℚ) / (s.height : ℚ)))
            (p.inputShape.2 : ℚ)) / (p.nPool : ℚ)) := by
  simp [retainedSamples, List.mem_filter, inputLengthOf, compute_length_inputs]
  tauto

/-- Claim C5: greedy decoding of the argmax sequence
`[1, 1, 0, 2, 2, 3, 0, 0]` with blank `0` collapses consecutive repeats and
removes blanks, yielding `[1, 2, 3]`. -/
theorem C5_greedy_decode_example :
    greedyDecode 0 [1, 1, 0, 2, 2, 3, 0, 0] = [1, 2, 3] := rfl

/-- Claim C9: on an empty input, `preprocess_csv` produces an empty output,
returns the count `0` and raises no error; the removal diagnostic is not
emitted (it is advisory data in the `ok` result, never an error). -/
theorem C9_empty_input {α : Type} [DecidableEq α] (p : PreprocParams α) :
    preprocess_csv p ([] : List (Sample α)) = .ok ([], none, 0) := rfl

/-- Claim C6, counterexample: with zero accumulated distance and zero true
characters, `warp_cer_metric` — the metric compiled into the training
model — does not return `1.0`: its unguarded `tf.divide` has no defined
rational value. -/
theorem C6_counterexample : warp_cer_metric_value 0 0 ≠ some 1 := by decide

/-- Claim C6, amended: `CERMetric.result` returns exactly `1.0` when the
accumulated true-character count is `0`, but `warp_cer_metric`, the metric
actually used during training, performs an unguarded division whose result
is undefined at a zero character count. -/
theorem C6_amended_zero_chars (d : ℚ) :
    CERMetricState.result ⟨d, 0⟩ = 1 ∧ warp_cer_metric_value d 0 = none := by
  constructor
  · simp [CERMetricState.result]
  · simp [warp_cer_metric_value]

unseal Rat.mul Rat.inv Rat.add Rat.sub in
/-- Claim C7, counterexample: over the two batches `(distance, chars) =
(1, 1)` and `(0, 9)`, the metric compiled into the training model
(`warp_cer_metric`) reports the current batch's ratio `0`, not the
ratio `1/10` of the running totals kept by the `CERMetric` accumulator. -/
theorem C7_counterexample :
    warp_cer_metric_value 0 9 ≠
      some ((runCERMetric [(1, 1), (0, 9)]).result) := by decide

/-- Claim C7, amended: `CERMetric` is a stateful accumulator — over any
batch sequence its state holds the running sums of edit distance and of
true character count, its result is the ratio of these running totals
(guarded at zero), and `reset_states` zeroes both sums — but the metric
`get_model_train` compiles into the training model is the stateless
per-batch `warp_cer_metric`, not this accumulator. -/
theorem C7_amended_accumulator (batches : List (ℚ × ℚ)) :
    (runCERMetric batches).distance = (batches.map Prod.fst).sum ∧
    (runCERMetric batches).count_chars = (batches.map Prod.snd).sum ∧
    (runCERMetric batches).result =
      (if 0 < (batches.map Prod.snd).sum then
        (batches.map Prod.fst).sum / (batches.map Prod.snd).sum else 1) ∧
    CERMetricState.reset_states.distance = 0 ∧
    CERMetricState.reset_states.count_chars = 0 := by
  have h2 : runCERMetric batches =
      ⟨(batches.map Prod.fst).sum, (batches.map Prod.snd).sum⟩ := by
    rw [runCERMetric, runCERMetric_foldl]
    simp [CERMetricState.reset_states]
  refine ⟨by rw [h2], by rw [h2], by rw [h2]; rfl, rfl, rfl⟩

/-- Claim C8, counterexample: with six parallel configuration lists of
mismatched lengths (two feature counts but one entry in every other list),
`get_crnn_output` raises no configuration error: the `zip` silently
truncates and a single conv block is built, dropping the second feature
count. -/
theorem C8_counterexample :
    convLayers [64, 128] [3] [(1, 1)] [(2, 2)] [(2, 2)] [true] =
        [⟨64, 3, (1, 1), "same", (2, 2), (2, 2), true⟩] ∧
      ([64, 128] : List ℕ).length ≠ ([3] : List ℕ).length := by
  exact ⟨rfl, by decide⟩

/-- Claim C8, amended: mismatched parallel configuration lists do not make
model construction fail; `zip` truncates them, so the number of conv
blocks built is the minimum of the six list lengths. -/
theorem C8_amended_zip_truncates (features kernels : List ℕ)
    (strides poolSizes poolStrides : List (ℕ × ℕ)) (bns : List Bool) :
    (convLayers features kernels strides poolSizes poolStrides bns).length =
      min (min (min (min (min features.length kernels.length) strides.length)
        poolSizes.length) poolStrides.length) bns.length := by
  simp only [convLayers, List.length_map, cnnParams, List.length_zip]
  omega

lemma decodeCode_lookup {α : Type} [DecidableEq α] {t : List (List α × ℕ)}
    {u : List α} {c : ℕ}
    (hvalinj : ∀ kv1 ∈ t, ∀ kv2 ∈ t, kv1.2 = kv2.2 → kv1.1 = kv2.1)
    (h : lookupTable t u = some c) : decodeCode t c = some u := by
  induction t with
  | nil => simp [lookupTable] at h
  | cons kv rest ih =>
    simp only [lookupTable] at h
    simp only [decodeCode]
    by_cases hk : kv.1 = u
    · simp [hk] at h
      rw [if_pos h, hk]
    · simp [hk] at h
      have hmem : (u, c) ∈ rest := lookupTable_mem h
      have hne : kv.2 ≠ c := by
        intro hv
        exact hk (hvalinj kv (List.mem_cons_self _ _) (u, c)
          (List.mem_cons_of_mem _ hmem) hv)
      rw [if_neg hne]
      exact ih (fun kv1 h1 kv2 h2 =>
        hvalinj kv1 (List.mem_cons_of_mem _ h1) kv2 (List.mem_cons_of_mem _ h2)) h

lemma decodeCodes_encode {α : Type} [DecidableEq α] {t : List (List α × ℕ)}
    (hvalinj : ∀ kv1 ∈ t, ∀ kv2 ∈ t, kv1.2 = kv2.2 → kv1.1 = kv2.1)
    {us : List (List α)} (h : ∀ u ∈ us, (lookupTable t u).isSome) :
    decodeCodes t (us.map (fun u => (lookupTable t u).getD 0)) = some us := by
  induction us with
  | nil => rfl
  | cons u us2 ih =>
    obtain ⟨c, hc⟩ := Option.isSome_iff_exists.mp (h u (List.mem_cons_self _ _))
    have hdec := decodeCode_lookup hvalinj hc
    have ih2 := ih (fun v hv => h v (List.mem_cons_of_mem _ hv))
    simp only [List.map_cons, decodeCodes]
    rw [hc]
    simp only [Option.getD_some]
    rw [hdec, ih2]

lemma encoded_ne_zero {α : Type} [DecidableEq α] {t : List (List α × ℕ)}
    (hzero : ∀ kv ∈ t, kv.2 ≠ 0) {us : List (List α)}
    (h : ∀ u ∈ us, (lookupTable t u).isSome) :
    ∀ c ∈ us.map (fun u => (lookupTable t u).getD 0), c ≠ 0 := by
  intro c hc
  obtain ⟨u, hu, hcu⟩ := List.mem_map.mp hc
  obtain ⟨c2, hc2⟩ := Option.isSome_iff_exists.mp (h u hu)
  rw [← hcu, hc2]
  simpa using hzero (u, c2) (lookupTable_mem hc2)

lemma filter_padCodes {codes : List ℕ} (h : ∀ c ∈ codes, c ≠ 0) (maxW : ℕ) :
    (padCodes codes maxW).filter (fun c => c ≠ 0) = codes := by
  simp only [padCodes, List.filter_append]
  have h1 : codes.filter (fun c => c ≠ 0) = codes :=
    List.filter_eq_self.mpr (fun a ha => by simpa using h a ha)
  have h2 : (List.replicate (maxW - codes.length) 0).filter
      (fun c : ℕ => c ≠ 0) = [] := by
    simp
  rw [h1, h2, List.append_nil]

/-- Claim C3: for an encodable label, the dense code sequence emitted by
`_convert_label_to_dense_codes` decodes back — restricted to its
non-padding (non-zero) codes and mapped through the inverse of the
character-to-code table — to the label's unit list, whose concatenation is
exactly the delimiter-stripped label string; this needs the alphabet to be
value-injective (a bijection) with code `0` reserved for padding. -/
theorem C3_round_trip {α : Type} [DecidableEq α] (t : List (List α × ℕ))
    (d : α) (maxW : ℕ) (label : List α)
    (hvalinj : ∀ kv1 ∈ t, ∀ kv2 ∈ t, kv1.2 = kv2.2 → kv1.1 = kv2.1)
    (hzero : ∀ kv ∈ t, kv.2 ≠ 0)
    (hdom : ∀ u ∈ labelUnits d label, (lookupTable t u).isSome) :
    ∃ dense len,
      convert_label_to_dense_codes [label] d maxW t = .ok ([dense], [len]) ∧
      decodeCodes t (dense.filter (fun c => c ≠ 0)) =
        some (labelUnits d label) ∧
      (labelUnits d label).flatten = stripDelim d label := by
  have hdom' : ∀ l ∈ [labelUnits d label], ∀ u ∈ l, (lookupTable t u).isSome := by
    intro l hl
    rw [List.mem_singleton.mp hl]
    exact hdom
  have henc := encodeLabels_ok hdom'
  refine ⟨padCodes ((labelUnits d label).map
      (fun u => (lookupTable t u).getD 0)) maxW,
    ((labelUnits d label).map (fun u => (lookupTable t u).getD 0)).length,
    ?_, ?_, flatten_labelUnits d label⟩
  · simp [convert_label_to_dense_codes, henc]
  · rw [filter_padCodes (encoded_ne_zero hzero hdom)]
    exact decodeCodes_encode hvalinj hdom

/-- Witness for C3 at the alphabet `{a ↦ 1, b ↦ 2}`, delimiter `|`,
label `|a|b|` and width `4`. -/
theorem C3_witness :
    ∃ dense len,
      convert_label_to_dense_codes [[ '|', 'a', '|', 'b', '|' ]] '|' 4
          [([ 'a' ], 1), ([ 'b' ], 2)] = .ok ([dense], [len]) ∧
      decodeCodes [([ 'a' ], 1), ([ 'b' ], 2)]
          (dense.filter (fun c => c ≠ 0)) =
        some (labelUnits '|' [ '|', 'a', '|', 'b', '|' ]) ∧
      (labelUnits '|' [ '|', 'a', '|', 'b', '|' ]).flatten =
        stripDelim '|' [ '|', 'a', '|', 'b', '|' ] :=
  C3_round_trip [([ 'a' ], 1), ([ 'b' ], 2)] '|' 4
    [ '|', 'a', '|', 'b', '|' ] (by decide) (by decide) (by decide)

/-- Claim C4: if any retained sample's label contains a unit absent from
the alphabet table, `preprocess_csv` aborts with an error labelled by an
absent unit (the `KeyError`) and emits no output rows at all. -/
theorem C4_unknown_unit_aborts {α : Type} [DecidableEq α]
    (p : PreprocParams α) (samples : List (Sample α))
    (h : ∃ s ∈ retainedSamples p samples,
      ∃ u ∈ labelUnits p.splitDelim s.label, lookupTable p.table u = none) :
    ∃ e, preprocess_csv p samples = .error e ∧ lookupTable p.table e = none := by
  obtain ⟨s, hs, u, hu, hnone⟩ := h
  simp only [preprocess_csv]
  cases hconv : convert_label_to_dense_codes
      ((retainedSamples p samples).map (·.label)) p.splitDelim
      p.maxCharsPerString p.table with
  | error e =>
    refine ⟨e, rfl, ?_⟩
    simp only [convert_label_to_dense_codes] at hconv
    cases henc : encodeLabels p.table
        (((retainedSamples p samples).map (·.label)).map
          (labelUnits p.splitDelim)) with
    | error e2 =>
      rw [henc] at hconv
      simp at hconv
      rw [← hconv]
      exact encodeLabels_error_lookup henc
    | ok css => rw [henc] at hconv; simp at hconv
  | ok pair =>
    exfalso
    simp only [convert_label_to_dense_codes] at hconv
    cases henc : encodeLabels p.table
        (((retainedSamples p samples).map (·.label)).map
          (labelUnits p.splitDelim)) with
    | error e2 => rw [henc] at hconv; simp at hconv
    | ok css =>
      have hmem : labelUnits p.splitDelim s.label ∈
          ((retainedSamples p samples).map (·.label)).map
            (labelUnits p.splitDelim) :=
        List.mem_map.mpr ⟨s.label, List.mem_map.mpr ⟨s, hs, rfl⟩, rfl⟩
      have hsome := encodeLabels_ok_isSome henc _ hmem u hu
      rw [hnone] at hsome
      simp at hsome

unseal Rat.mul Rat.inv Rat.add Rat.sub in
/-- Witness for C4: the table knows only `a`, the retained sample's label
`|a|b|` contains the unit `b`, and the whole run aborts with that unit as
the error label. -/
theorem C4_witness :
    ∃ e, preprocess_csv
        (⟨[([ 'a' ], 1)], '|', 5, (10, 200), 1⟩ : PreprocParams Char)
        [⟨0, 100, 10, [ '|', 'a', '|', 'b', '|' ]⟩] = .error e ∧
      lookupTable [([ 'a' ], 1)] e = none :=
  C4_unknown_unit_aborts _ _ (by decide)

/-- Claim C10: `_convert_label_to_dense_codes` pads each unit-code list of
length `L` with exactly `max(0, max_width - L)` zeros and never truncates:
the dense sequence has length `max L max_width` (so an oversize label
yields a sequence longer than `max_width`, not a truncated one), and the
empty units produced by splitting are dropped before any alphabet lookup
(the hypothesis only covers non-empty units). -/
theorem C10_padding_never_truncates {α : Type} [DecidableEq α]
    (t : List (List α × ℕ)) (d : α) (maxW : ℕ) (label : List α)
    (hdom : ∀ u ∈ labelUnits d label, (lookupTable t u).isSome) :
    ∃ codes,
      convert_label_to_dense_codes [label] d maxW t =
        .ok ([codes ++ List.replicate (maxW - codes.length) 0],
          [codes.length]) ∧
      codes.length = (labelUnits d label).length ∧
      (codes ++ List.replicate (maxW - codes.length) 0).length =
        max codes.length maxW ∧
      ∀ u ∈ labelUnits d label, u ≠ [] := by
  have hdom' : ∀ l ∈ [labelUnits d label], ∀ u ∈ l, (lookupTable t u).isSome := by
    intro l hl
    rw [List.mem_singleton.mp hl]
    exact hdom
  have henc := encodeLabels_ok hdom'
  refine ⟨(labelUnits d label).map (fun u => (lookupTable t u).getD 0),
    ?_, List.length_map _ _, ?_, labelUnits_ne_nil d label⟩
  · simp [convert_label_to_dense_codes, henc, padCodes]
  · simp only [List.length_append, List.length_replicate]
    omega

/-- Witness for C10 at width `1` and the label `|a||b|` (an empty unit
between the two delimiters, and more units than the width): the emitted
sequence `[1, 2]` is longer than the width, not truncated. -/
theorem C10_witness :
    ∃ codes,
      convert_label_to_dense_codes [[ '|', 'a', '|', '|', 'b', '|' ]] '|' 1
          [([ 'a' ], 1), ([ 'b' ], 2)] =
        .ok ([codes ++ List.replicate (1 - codes.length) 0],
          [codes.length]) ∧
      codes.length =
        (labelUnits '|' [ '|', 'a', '|', '|', 'b', '|' ]).length ∧
      (codes ++ List.replicate (1 - codes.length) 0).length =
        max codes.length 1 ∧
      ∀ u ∈ labelUnits '|' [ '|', 'a', '|', '|', 'b', '|' ], u ≠ [] :=
  C10_padding_never_truncates [([ 'a' ], 1), ([ 'b' ], 2)] '|' 1
    [ '|', 'a', '|', '|', 'b', '|' ] (by decide)

unseal Rat.mul Rat.inv Rat.add Rat.sub in
/-- Claim C1, counterexample: with the (multi-character) alphabet unit
`ab ↦ 1`, the label `|ab|` is retained (`label_len = 2` passes both
filters), but the recorded true sequence length is `1` — the number of
units — not `label_len = 2`. -/
theorem C1_counterexample :
    preprocess_csv
        (⟨[([ 'a', 'b' ], 1)], '|', 5, (10, 200), 1⟩ : PreprocParams Char)
        [⟨0, 100, 10, [ '|', 'a', 'b', '|' ]⟩] =
      .ok ([⟨0, [1, 0, 0, 0, 0], 1⟩], none, 1) ∧
    labelLen '|' [ '|', 'a', 'b', '|' ] = 2 ∧ (1 : ℕ) ≠ 2 :=
  ⟨by rfl, by decide, by decide⟩

/-- Claim C1, amended: for every row that `preprocess_csv` emits, the
recorded true sequence length is the number of non-empty delimiter-split
units of the retained sample's label — equal to `label_len` whenever every
unit is a single character — the dense code sequence has exactly
`max_chars_per_string` slots, and the positions from the true length on
are all `0`. -/
theorem C1_retained_row_spec {α : Type} [DecidableEq α]
    (p : PreprocParams α) (samples : List (Sample α)) (rows : List OutRow)
    (diag : Option ℚ) (n : ℕ)
    (hrun : preprocess_csv p samples = .ok (rows, diag, n))
    (r : OutRow) (hr : r ∈ rows) :
    ∃ s ∈ retainedSamples p samples,
      r.labelLength = (labelUnits p.splitDelim s.label).length ∧
      ((∀ u ∈ labelUnits p.splitDelim s.label, u.length = 1) →
        r.labelLength = labelLen p.splitDelim s.label) ∧
      r.labelCodes.length = p.maxCharsPerString ∧
      r.labelCodes.drop r.labelLength =
        List.replicate (p.maxCharsPerString - r.labelLength) 0 := by
  rw [preprocess_csv_ok_rows hrun] at hr
  obtain ⟨s, hs, hrow⟩ := List.mem_map.mp hr
  have hlen : labelLen p.splitDelim s.label ≤ p.maxCharsPerString := by
    have hs1 := (List.mem_filter.mp hs).1
    simpa using (List.mem_filter.mp hs1).2
  have hunits : (labelUnits p.splitDelim s.label).length ≤ p.maxCharsPerString :=
    le_trans (labelUnits_length_le _ _) hlen
  have hclen : ((labelUnits p.splitDelim s.label).map
      (fun u => (lookupTable p.table u).getD 0)).length =
      (labelUnits p.splitDelim s.label).length := List.length_map _ _
  refine ⟨s, hs, ?_, ?_, ?_, ?_⟩
  · rw [← hrow]
  · intro hsingle
    rw [← hrow]
    have h1 : (labelUnits p.splitDelim s.label).flatten.length =
        (labelUnits p.splitDelim s.label).length :=
      length_flatten_of_singletons _ hsingle
    rw [flatten_labelUnits] at h1
    exact h1.symm
  · rw [← hrow]
    simp only [emittedCodes, padCodes, List.length_append,
      List.length_replicate, hclen]
    omega
  · rw [← hrow]
    simp only [emittedCodes, padCodes, hclen]
    rw [← hclen]
    rw [List.drop_left]

unseal Rat.mul Rat.inv Rat.add Rat.sub in
/-- Witness for the amended C1 on the single-character alphabet
`{a ↦ 1, b ↦ 2}` and the retained label `|a|b|`: the emitted row records
length `2 = label_len`, five slots and zero padding from position `2`. -/
theorem C1_witness :
    ∃ s ∈ retainedSamples
        (⟨[([ 'a' ], 1), ([ 'b' ], 2)], '|', 5, (10, 200), 4⟩ :
          PreprocParams Char)
        [⟨0, 100, 10, [ '|', 'a', '|', 'b', '|' ]⟩],
      (⟨0, [1, 2, 0, 0, 0], 2⟩ : OutRow).labelLength =
        (labelUnits '|' s.label).length ∧
      ((∀ u ∈ labelUnits '|' s.label, u.length = 1) →
        (⟨0, [1, 2, 0, 0, 0], 2⟩ : OutRow).labelLength =
          labelLen '|' s.label) ∧
      (⟨0, [1, 2, 0, 0, 0], 2⟩ : OutRow).labelCodes.length = 5 ∧
      (⟨0, [1, 2, 0, 0, 0], 2⟩ : OutRow).labelCodes.drop
          (⟨0, [1, 2, 0, 0, 0], 2⟩ : OutRow).labelLength =
        List.replicate (5 - (⟨0, [1, 2, 0, 0, 0], 2⟩ : OutRow).labelLength) 0 :=
  C1_retained_row_spec
    (⟨[([ 'a' ], 1), ([ 'b' ], 2)], '|', 5, (10, 200), 4⟩ : PreprocParams Char)
    [⟨0, 100, 10, [ '|', 'a', '|', 'b', '|' ]⟩]
    [⟨0, [1, 2, 0, 0, 0], 2⟩] none 1 (by rfl)
    ⟨0, [1, 2, 0, 0, 0], 2⟩ (by decide)
